import Mathlib

/-!
Verification of the COMMS protocol-engine specification for the
comms_champion repository.

The repository ships only a subset of the library sources: the
SyncPrefixLayer unit tests, the BitmaskValue field header, and the
doxygen tutorials describing the message interface and the protocol
stack.  The protocol layer implementations themselves
(SyncPrefixLayer, MsgSizeLayer, MsgIdLayer, MsgDataLayer,
ChecksumLayer) are referenced by the tests and tutorials but their
headers are absent, so those operations are modelled from the
specification text and from the behaviour pinned down by the unit
tests.  BitmaskValue operations are translated directly from
comms/field/BitmaskValue.h.

Bytes are modelled as natural numbers below 256, buffers as lists of
bytes, and machine integers as natural numbers reduced modulo the
relevant power of two.
-/

namespace CommsModel

/-- Modelled from the spec: the ErrorStatus enumeration observable at the
core boundary (comms/ErrorStatus.h is not shipped; the spec lists the
values). -/
inductive ErrorStatus
  | Success
  | NotEnoughData
  | ProtocolError
  | InvalidMsgId
  | InvalidMsgData
  | MsgAllocFailure
  | BufferOverflow
  | UpdateRequired
  | NotSupported
deriving DecidableEq

/-- Serialisation endianness, selected by the comms::option::BigEndian or
comms::option::LittleEndian message interface option. -/
inductive Endian
  | big
  | little
deriving DecidableEq

/-- Little-endian serialisation of a value into `n` bytes, least
significant byte first.  Each byte is the value reduced modulo 256. -/
def leEncode : Nat → Nat → List Nat
  | 0, _ => []
  | n + 1, v => v % 256 :: leEncode n (v / 256)

/-- Little-endian deserialisation of a byte list, least significant
byte first. -/
def leDecode : List Nat → Nat
  | [] => 0
  | b :: bs => b + 256 * leDecode bs

/-- Serialisation of a value into `n` bytes in the given endianness. -/
def fieldEncode (e : Endian) (n v : Nat) : List Nat :=
  match e with
  | .big => (leEncode n v).reverse
  | .little => leEncode n v

/-- Deserialisation of a byte list in the given endianness. -/
def fieldDecode (e : Endian) (bs : List Nat) : Nat :=
  match e with
  | .big => leDecode bs.reverse
  | .little => leDecode bs

theorem leEncode_length (n v : Nat) : (leEncode n v).length = n := by
  induction n generalizing v with
  | zero => rfl
  | succ n ih => simp [leEncode, ih]

theorem fieldEncode_length (e : Endian) (n v : Nat) :
    (fieldEncode e n v).length = n := by
  cases e <;> simp [fieldEncode, leEncode_length]

theorem leDecode_leEncode (n v : Nat) (h : v < 2 ^ (8 * n)) :
    leDecode (leEncode n v) = v := by
  induction n generalizing v with
  | zero =>
    interval_cases v
    rfl
  | succ n ih =>
    have hdiv : v / 256 < 2 ^ (8 * n) := by
      have hpow : 2 ^ (8 * (n + 1)) = 2 ^ (8 * n) * 256 := by
        rw [Nat.mul_succ, pow_add]
        norm_num
      rw [Nat.div_lt_iff_lt_mul (by norm_num : 0 < 256)]
      rw [hpow] at h
      exact h
    simp [leEncode, leDecode, ih (v / 256) hdiv]
    omega

theorem fieldDecode_fieldEncode (e : Endian) (n v : Nat)
    (h : v < 2 ^ (8 * n)) :
    fieldDecode e (fieldEncode e n v) = v := by
  cases e <;>
    simp [fieldDecode, fieldEncode, List.reverse_reverse,
      leDecode_leEncode n v h]

/-- Modelled from the spec: the test message catalog used by the
SyncPrefixLayer test suite (CommsTestCommon.h is not shipped).  The
tests exercise Message1, whose single field is a two byte unsigned
integer (test1 decodes payload bytes 0x01 0x02 into field value
0x0102), and the catalog contains further message types; a second
message with an empty payload represents them. -/
inductive TestMsg
  | msg1 (value : Nat)
  | msg2
deriving DecidableEq

/-- Numeric message identifier, as returned by getId().  The test
buffers place MessageType1 at the ID position and expect getId() to be
MessageType1; the spec scenario fixes its numeric value to 1. -/
def msgIdOf : TestMsg → Nat
  | .msg1 _ => 1
  | .msg2 => 2

/-- Payload serialisation length of a message, the value of
Message::length(). -/
def msgLen : TestMsg → Nat
  | .msg1 _ => 2
  | .msg2 => 0

/-- Payload bytes produced by a successful Message::write(). -/
def msgPayload (e : Endian) : TestMsg → List Nat
  | .msg1 v => fieldEncode e 2 v
  | .msg2 => []

/-- Modelled from the spec: Message::write() (writeImpl in
page_message.dox) returns BufferOverflow when the supplied maximal
length is below the serialisation length, otherwise writes the fields
in order and succeeds. -/
def msgWrite (e : Endian) (m : TestMsg) (len : Nat) :
    ErrorStatus × List Nat :=
  if len < msgLen m then (.BufferOverflow, [])
  else (.Success, msgPayload e m)

/-- Representation invariant of the stored field values: the C++
ValueType of the Message1 field is a sixteen bit unsigned integer. -/
def msgWf : TestMsg → Prop
  | .msg1 v => v < 2 ^ 16
  | .msg2 => True

instance (m : TestMsg) : Decidable (msgWf m) := by
  cases m <;> simp [msgWf] <;> infer_instance

/-- Modelled from the spec: Message::valid() is the conjunction of the
field validity predicates; the test messages use fields without
validity constraints, so every stored value is valid. -/
def msgValid (_ : TestMsg) : Bool := true

/-- Modelled from the spec: the default refresh hook of the message
interface (page_message.dox) leaves the message unchanged and returns
false; the test catalog messages do not override it.  The boolean
reports whether any field changed. -/
def msgRefresh (m : TestMsg) : TestMsg × Bool := (m, false)

/-- Outcome of a layered read: resulting status, the decoded message
held by the MsgPtr output argument, and the number of bytes the read
iterator advanced. -/
structure ReadOutcome where
  status : ErrorStatus
  msg : Option TestMsg
  consumed : Nat
deriving DecidableEq

/-- Modelled from the spec: Message::read() (MsgDataLayer forwards to
it) reads the fields in declaration order into the freshly created
message object, failing with NotEnoughData when the buffer is too
short. -/
def msgReadInto (e : Endian) (m : TestMsg) (bs : List Nat) : ReadOutcome :=
  match m with
  | .msg1 _ =>
    if bs.length < 2 then ⟨.NotEnoughData, none, 0⟩
    else ⟨.Success, some (.msg1 (fieldDecode e (bs.take 2))), 2⟩
  | .msg2 => ⟨.Success, some .msg2, 0⟩

/-- Modelled from the spec: the factory lookup of MsgIdLayer.  A known
identifier yields a default constructed message of the matching
concrete type; an identifier outside the catalog yields none. -/
def createMsg : Nat → Option TestMsg
  | 1 => some (.msg1 0)
  | 2 => some .msg2
  | _ => none

/-- Compile time configuration of the test protocol stack: endianness,
serialised length and serialisation offset of the SIZE field, and
serialised length of the ID field.  The SYNC field is fixed at two
bytes with expected value 0xabcd, as in the tests and the spec
scenario. -/
structure StackCfg where
  endian : Endian
  sizeLen : Nat
  sizeOff : Nat
  idLen : Nat
deriving DecidableEq

/-- Expected synchronisation value of the SYNC field. -/
def SyncValue : Nat := 0xabcd

/-- Modelled from the spec: MsgIdLayer::read.  Reads the ID field,
looks the identifier up in the factory table (absent identifier yields
InvalidMsgId), allocates the message (a second in place allocation
while the slot is occupied is signalled by allocOk = false and yields
MsgAllocFailure without touching the held message), then delegates the
remaining bytes to the data layer. -/
def idLayerRead (cfg : StackCfg) (allocOk : Bool) (bs : List Nat) :
    ReadOutcome :=
  if bs.length < cfg.idLen then ⟨.NotEnoughData, none, 0⟩
  else
    match createMsg (fieldDecode cfg.endian (bs.take cfg.idLen)) with
    | none => ⟨.InvalidMsgId, none, cfg.idLen⟩
    | some m =>
      if allocOk then
        let r := msgReadInto cfg.endian m (bs.drop cfg.idLen)
        ⟨r.status, r.msg, cfg.idLen + r.consumed⟩
      else ⟨.MsgAllocFailure, none, cfg.idLen⟩

/-- Modelled from the spec: MsgSizeLayer::read.  Reads the SIZE field
(subtracting the serialisation offset modulo the field width), yields
NotEnoughData when the declared remaining length exceeds the available
buffer, and otherwise forwards exactly the declared span to the inner
layer. -/
def sizeLayerRead (cfg : StackCfg) (allocOk : Bool) (bs : List Nat) :
    ReadOutcome :=
  if bs.length < cfg.sizeLen then ⟨.NotEnoughData, none, 0⟩
  else
    let w := 2 ^ (8 * cfg.sizeLen)
    let remLen :=
      (fieldDecode cfg.endian (bs.take cfg.sizeLen) + (w - cfg.sizeOff % w)) % w
    if bs.length - cfg.sizeLen < remLen then ⟨.NotEnoughData, none, cfg.sizeLen⟩
    else
      let r := idLayerRead cfg allocOk ((bs.drop cfg.sizeLen).take remLen)
      ⟨r.status, r.msg, cfg.sizeLen + r.consumed⟩

/-- Modelled from the spec: SyncPrefixLayer::read followed by the inner
layers, the full ProtocolStack::read of the test stack.  The two sync
bytes are compared against the fixed expected value; a mismatch yields
ProtocolError and no message.  The allocOk flag records whether the
message allocation slot of the ID layer is free (always true for the
dynamic allocation policy). -/
def stackReadA (cfg : StackCfg) (allocOk : Bool) (bs : List Nat) :
    ReadOutcome :=
  if bs.length < 2 then ⟨.NotEnoughData, none, 0⟩
  else if fieldDecode cfg.endian (bs.take 2) = SyncValue then
    let r := sizeLayerRead cfg allocOk (bs.drop 2)
    ⟨r.status, r.msg, 2 + r.consumed⟩
  else ⟨.ProtocolError, none, 0⟩

/-- ProtocolStack::read with a free allocation slot (the dynamic
allocation policy, used by all the tests). -/
def stackRead (cfg : StackCfg) (bs : List Nat) : ReadOutcome :=
  stackReadA cfg true bs

/-- Total serialisation length of a framed message,
ProtocolStack::length. -/
def stackLen (cfg : StackCfg) (m : TestMsg) : Nat :=
  2 + cfg.sizeLen + cfg.idLen + msgLen m

/-- The full frame a successful ProtocolStack::write produces: SYNC,
SIZE (value covering the layers it wraps plus the serialisation
offset), ID, PAYLOAD. -/
def frameBytes (cfg : StackCfg) (m : TestMsg) : List Nat :=
  fieldEncode cfg.endian 2 SyncValue
    ++ fieldEncode cfg.endian cfg.sizeLen (cfg.idLen + msgLen m + cfg.sizeOff)
    ++ fieldEncode cfg.endian cfg.idLen (msgIdOf m)
    ++ msgPayload cfg.endian m

/-- Modelled from the spec: ProtocolStack::write of the test stack.
Each layer writes its own field after checking the remaining buffer
capacity, failing with BufferOverflow when the capacity is exceeded,
and delegates the rest of the buffer to the inner layer. -/
def stackWrite (cfg : StackCfg) (m : TestMsg) (len : Nat) :
    ErrorStatus × List Nat :=
  if len < 2 then (.BufferOverflow, [])
  else if len - 2 < cfg.sizeLen then (.BufferOverflow, [])
  else if len - 2 - cfg.sizeLen < cfg.idLen then (.BufferOverflow, [])
  else
    let r := msgWrite cfg.endian m (len - 2 - cfg.sizeLen - cfg.idLen)
    if r.1 = .Success then (.Success, frameBytes cfg m)
    else (r.1, [])

/-- Well formedness of a stack configuration: no serialisation offset
on the SIZE field (the configurations of the relevant tests), at least
one byte for SIZE and ID, and a SIZE field wide enough to hold the
remaining length of every catalog message. -/
def wfCfg (cfg : StackCfg) : Prop :=
  cfg.sizeOff = 0 ∧ 1 ≤ cfg.sizeLen ∧ 1 ≤ cfg.idLen ∧
    cfg.idLen + 2 < 2 ^ (8 * cfg.sizeLen)

instance (cfg : StackCfg) : Decidable (wfCfg cfg) := by
  unfold wfCfg
  infer_instance

theorem take_append_exact {α : Type _} (xs ys : List α) (n : Nat)
    (h : xs.length = n) : (xs ++ ys).take n = xs := by
  subst h
  exact List.take_left xs ys

theorem drop_append_exact {α : Type _} (xs ys : List α) (n : Nat)
    (h : xs.length = n) : (xs ++ ys).drop n = ys := by
  subst h
  exact List.drop_left xs ys

theorem msgPayload_length (e : Endian) (m : TestMsg) :
    (msgPayload e m).length = msgLen m := by
  cases m <;> simp [msgPayload, msgLen, fieldEncode_length]

theorem msgLen_le_two (m : TestMsg) : msgLen m ≤ 2 := by
  cases m <;> simp [msgLen]

theorem frameBytes_length (cfg : StackCfg) (m : TestMsg) :
    (frameBytes cfg m).length = stackLen cfg m := by
  simp [frameBytes, stackLen, fieldEncode_length, msgPayload_length]
  omega

theorem msgIdOf_lt (cfg : StackCfg) (m : TestMsg) (h : 1 ≤ cfg.idLen) :
    msgIdOf m < 2 ^ (8 * cfg.idLen) := by
  have h256 : (256 : Nat) ≤ 2 ^ (8 * cfg.idLen) := by
    calc (256 : Nat) = 2 ^ (8 * 1) := by norm_num
    _ ≤ 2 ^ (8 * cfg.idLen) :=
      Nat.pow_le_pow_right (by norm_num) (by omega)
  cases m <;> simp [msgIdOf] <;> omega

theorem idLayerRead_frame (cfg : StackCfg) (m : TestMsg) (allocOk : Bool)
    (hi1 : 1 ≤ cfg.idLen) (hm : msgWf m) :
    idLayerRead cfg allocOk
        (fieldEncode cfg.endian cfg.idLen (msgIdOf m) ++ msgPayload cfg.endian m) =
      if allocOk then ⟨.Success, some m, cfg.idLen + msgLen m⟩
      else ⟨.MsgAllocFailure, none, cfg.idLen⟩ := by
  have hIlen :
      (fieldEncode cfg.endian cfg.idLen (msgIdOf m)).length = cfg.idLen :=
    fieldEncode_length ..
  have hPlen : (msgPayload cfg.endian m).length = msgLen m :=
    msgPayload_length ..
  have hlen : ¬ (fieldEncode cfg.endian cfg.idLen (msgIdOf m)
      ++ msgPayload cfg.endian m).length < cfg.idLen := by
    simp [hIlen, hPlen]
  unfold idLayerRead
  rw [if_neg hlen,
    take_append_exact _ _ _ hIlen,
    fieldDecode_fieldEncode _ _ _ (msgIdOf_lt cfg m hi1),
    drop_append_exact _ _ _ hIlen]
  cases m with
  | msg1 v =>
    have hv : v < 2 ^ 16 := hm
    have htk : (fieldEncode cfg.endian 2 v).take 2
        = fieldEncode cfg.endian 2 v :=
      List.take_of_length_le (by simp [fieldEncode_length])
    have hdec : fieldDecode cfg.endian (fieldEncode cfg.endian 2 v) = v :=
      fieldDecode_fieldEncode _ _ _ (by simpa using hv)
    cases allocOk <;>
      simp [createMsg, msgIdOf, msgReadInto, msgPayload, msgLen,
        fieldEncode_length, htk, hdec]
  | msg2 =>
    cases allocOk <;>
      simp [createMsg, msgIdOf, msgReadInto, msgLen]

theorem sizeLayerRead_frame (cfg : StackCfg) (m : TestMsg) (allocOk : Bool)
    (junk : List Nat) (hc : wfCfg cfg) (hm : msgWf m) :
    sizeLayerRead cfg allocOk
        (fieldEncode cfg.endian cfg.sizeLen (cfg.idLen + msgLen m + cfg.sizeOff)
          ++ (fieldEncode cfg.endian cfg.idLen (msgIdOf m)
            ++ (msgPayload cfg.endian m ++ junk))) =
      if allocOk then ⟨.Success, some m, cfg.sizeLen + (cfg.idLen + msgLen m)⟩
      else ⟨.MsgAllocFailure, none, cfg.sizeLen + cfg.idLen⟩ := by
  obtain ⟨hoff, hs1, hi1, hbound⟩ := hc
  have hZlen :
      (fieldEncode cfg.endian cfg.sizeLen
        (cfg.idLen + msgLen m + cfg.sizeOff)).length = cfg.sizeLen :=
    fieldEncode_length ..
  have hIlen :
      (fieldEncode cfg.endian cfg.idLen (msgIdOf m)).length = cfg.idLen :=
    fieldEncode_length ..
  have hPlen : (msgPayload cfg.endian m).length = msgLen m :=
    msgPayload_length ..
  have hdbound : cfg.idLen + msgLen m + cfg.sizeOff < 2 ^ (8 * cfg.sizeLen) := by
    have := msgLen_le_two m
    omega
  have hlen : ¬ (fieldEncode cfg.endian cfg.sizeLen
        (cfg.idLen + msgLen m + cfg.sizeOff)
      ++ (fieldEncode cfg.endian cfg.idLen (msgIdOf m)
        ++ (msgPayload cfg.endian m ++ junk))).length < cfg.sizeLen := by
    simp [hZlen, hIlen, hPlen]
  unfold sizeLayerRead
  rw [if_neg hlen]
  rw [take_append_exact _ _ _ hZlen,
    fieldDecode_fieldEncode _ _ _ hdbound,
    drop_append_exact _ _ _ hZlen]
  have hK : 0 < 2 ^ (8 * cfg.sizeLen) := Nat.pos_pow_of_pos _ (by norm_num)
  have hrem :
      (cfg.idLen + msgLen m + cfg.sizeOff
          + (2 ^ (8 * cfg.sizeLen) - cfg.sizeOff % 2 ^ (8 * cfg.sizeLen)))
        % 2 ^ (8 * cfg.sizeLen) = cfg.idLen + msgLen m := by
    rw [hoff]
    simp
    exact Nat.mod_eq_of_lt (by omega)
  simp only [hrem]
  have havail : ¬ (fieldEncode cfg.endian cfg.sizeLen
        (cfg.idLen + msgLen m + cfg.sizeOff)
      ++ (fieldEncode cfg.endian cfg.idLen (msgIdOf m)
        ++ (msgPayload cfg.endian m ++ junk))).length - cfg.sizeLen
        < cfg.idLen + msgLen m := by
    simp [hZlen, hIlen, hPlen]
  rw [if_neg havail]
  have htk : (fieldEncode cfg.endian cfg.idLen (msgIdOf m)
        ++ (msgPayload cfg.endian m ++ junk)).take (cfg.idLen + msgLen m)
      = fieldEncode cfg.endian cfg.idLen (msgIdOf m)
        ++ msgPayload cfg.endian m := by
    rw [show fieldEncode cfg.endian cfg.idLen (msgIdOf m)
          ++ (msgPayload cfg.endian m ++ junk)
        = (fieldEncode cfg.endian cfg.idLen (msgIdOf m)
          ++ msgPayload cfg.endian m) ++ junk by simp]
    exact take_append_exact _ _ _ (by simp [hIlen, hPlen])
  rw [htk, idLayerRead_frame cfg m allocOk hi1 hm]
  cases allocOk <;> simp

theorem stackReadA_frame (cfg : StackCfg) (m : TestMsg) (allocOk : Bool)
    (junk : List Nat) (hc : wfCfg cfg) (hm : msgWf m) :
    stackReadA cfg allocOk (frameBytes cfg m ++ junk) =
      if allocOk then ⟨.Success, some m, stackLen cfg m⟩
      else ⟨.MsgAllocFailure, none, 2 + cfg.sizeLen + cfg.idLen⟩ := by
  have hSlen : (fieldEncode cfg.endian 2 SyncValue).length = 2 :=
    fieldEncode_length ..
  have hframe : frameBytes cfg m ++ junk
      = fieldEncode cfg.endian 2 SyncValue
        ++ (fieldEncode cfg.endian cfg.sizeLen
              (cfg.idLen + msgLen m + cfg.sizeOff)
          ++ (fieldEncode cfg.endian cfg.idLen (msgIdOf m)
            ++ (msgPayload cfg.endian m ++ junk))) := by
    simp [frameBytes]
  rw [hframe]
  unfold stackReadA
  have hlen : ¬ (fieldEncode cfg.endian 2 SyncValue
      ++ (fieldEncode cfg.endian cfg.sizeLen
            (cfg.idLen + msgLen m + cfg.sizeOff)
        ++ (fieldEncode cfg.endian cfg.idLen (msgIdOf m)
          ++ (msgPayload cfg.endian m ++ junk)))).length < 2 := by
    simp [hSlen]
  rw [if_neg hlen, take_append_exact _ _ _ hSlen,
    fieldDecode_fieldEncode _ _ _ (by norm_num [SyncValue]),
    if_pos rfl, drop_append_exact _ _ _ hSlen,
    sizeLayerRead_frame cfg m allocOk junk hc hm]
  cases allocOk <;> simp [stackLen] <;> omega

theorem sizeValue_rem (cfg : StackCfg) (m : TestMsg) (hoff : cfg.sizeOff = 0)
    (hbound : cfg.idLen + 2 < 2 ^ (8 * cfg.sizeLen)) :
    (cfg.idLen + msgLen m + cfg.sizeOff
        + (2 ^ (8 * cfg.sizeLen) - cfg.sizeOff % 2 ^ (8 * cfg.sizeLen)))
      % 2 ^ (8 * cfg.sizeLen) = cfg.idLen + msgLen m := by
  have := msgLen_le_two m
  rw [hoff]
  simp
  exact Nat.mod_eq_of_lt (by omega)

theorem stackRead_truncated (cfg : StackCfg) (m : TestMsg) (k : Nat)
    (hc : wfCfg cfg) (hk : k < stackLen cfg m) :
    (stackReadA cfg true ((frameBytes cfg m).take k)).status = .NotEnoughData ∧
      (stackReadA cfg true ((frameBytes cfg m).take k)).msg = none := by
  obtain ⟨hoff, hs1, hi1, hbound⟩ := hc
  have hSlen : (fieldEncode cfg.endian 2 SyncValue).length = 2 :=
    fieldEncode_length ..
  have hZlen :
      (fieldEncode cfg.endian cfg.sizeLen
        (cfg.idLen + msgLen m + cfg.sizeOff)).length = cfg.sizeLen :=
    fieldEncode_length ..
  have hPlen : (msgPayload cfg.endian m).length = msgLen m :=
    msgPayload_length ..
  have hflen : (frameBytes cfg m).length = stackLen cfg m :=
    frameBytes_length ..
  have hstack : stackLen cfg m = 2 + cfg.sizeLen + cfg.idLen + msgLen m := rfl
  have hkl : ((frameBytes cfg m).take k).length = k := by
    rw [List.length_take, hflen]
    omega
  have hframe2 : frameBytes cfg m
      = fieldEncode cfg.endian 2 SyncValue
        ++ (fieldEncode cfg.endian cfg.sizeLen
              (cfg.idLen + msgLen m + cfg.sizeOff)
          ++ (fieldEncode cfg.endian cfg.idLen (msgIdOf m)
            ++ msgPayload cfg.endian m)) := by
    simp [frameBytes]
  by_cases hk2 : k < 2
  · unfold stackReadA
    rw [if_pos (by omega)]
    exact ⟨rfl, rfl⟩
  · unfold stackReadA
    rw [if_neg (by omega)]
    have htake2 : ((frameBytes cfg m).take k).take 2
        = fieldEncode cfg.endian 2 SyncValue := by
      rw [List.take_take, show (2 : Nat) ⊓ k = 2 by omega, hframe2]
      exact take_append_exact _ _ _ hSlen
    rw [htake2, fieldDecode_fieldEncode _ _ _ (by norm_num [SyncValue]),
      if_pos rfl]
    have hdrop2 : ((frameBytes cfg m).take k).drop 2
        = (fieldEncode cfg.endian cfg.sizeLen
              (cfg.idLen + msgLen m + cfg.sizeOff)
          ++ (fieldEncode cfg.endian cfg.idLen (msgIdOf m)
            ++ msgPayload cfg.endian m)).take (k - 2) := by
      rw [List.drop_take, hframe2, drop_append_exact _ _ _ hSlen]
    rw [hdrop2]
    have hrestlen : (fieldEncode cfg.endian cfg.sizeLen
          (cfg.idLen + msgLen m + cfg.sizeOff)
        ++ (fieldEncode cfg.endian cfg.idLen (msgIdOf m)
          ++ msgPayload cfg.endian m)).length
        = cfg.sizeLen + cfg.idLen + msgLen m := by
      simp [hZlen, fieldEncode_length, hPlen]
      omega
    have hbs2len : ((fieldEncode cfg.endian cfg.sizeLen
          (cfg.idLen + msgLen m + cfg.sizeOff)
        ++ (fieldEncode cfg.endian cfg.idLen (msgIdOf m)
          ++ msgPayload cfg.endian m)).take (k - 2)).length = k - 2 := by
      rw [List.length_take, hrestlen]
      omega
    by_cases hks : k - 2 < cfg.sizeLen
    · unfold sizeLayerRead
      rw [if_pos (by rw [hbs2len]; omega)]
      exact ⟨rfl, rfl⟩
    · unfold sizeLayerRead
      rw [if_neg (by rw [hbs2len]; omega)]
      have htkz : ((fieldEncode cfg.endian cfg.sizeLen
            (cfg.idLen + msgLen m + cfg.sizeOff)
          ++ (fieldEncode cfg.endian cfg.idLen (msgIdOf m)
            ++ msgPayload cfg.endian m)).take (k - 2)).take cfg.sizeLen
          = fieldEncode cfg.endian cfg.sizeLen
              (cfg.idLen + msgLen m + cfg.sizeOff) := by
        rw [List.take_take, show cfg.sizeLen ⊓ (k - 2) = cfg.sizeLen by omega]
        exact take_append_exact _ _ _ hZlen
      have hdbound :
          cfg.idLen + msgLen m + cfg.sizeOff < 2 ^ (8 * cfg.sizeLen) := by
        have := msgLen_le_two m
        omega
      rw [htkz, fieldDecode_fieldEncode _ _ _ hdbound]
      simp only [sizeValue_rem cfg m hoff hbound]
      rw [if_pos (by rw [hbs2len]; omega)]
      exact ⟨rfl, rfl⟩

theorem stackReadA_mismatch (cfg : StackCfg) (allocOk : Bool) (bs : List Nat)
    (h2 : 2 ≤ bs.length)
    (hne : fieldDecode cfg.endian (bs.take 2) ≠ SyncValue) :
    stackReadA cfg allocOk bs = ⟨.ProtocolError, none, 0⟩ := by
  unfold stackReadA
  rw [if_neg (by omega), if_neg hne]

theorem stackWrite_success (cfg : StackCfg) (m : TestMsg) (len : Nat)
    (hlen : stackLen cfg m ≤ len) :
    stackWrite cfg m len = (.Success, frameBytes cfg m) := by
  unfold stackLen at hlen
  unfold stackWrite
  rw [if_neg (by omega), if_neg (by omega), if_neg (by omega)]
  have h4 : ¬ len - 2 - cfg.sizeLen - cfg.idLen < msgLen m := by omega
  simp [msgWrite, h4]

/-- Corruption of a buffer: the byte at index i has bit k inverted. -/
def flipBit (bs : List Nat) (i k : Nat) : List Nat :=
  bs.set i (bs.getD i 0 ^^^ 2 ^ k)

theorem flipBit_length (bs : List Nat) (i k : Nat) :
    (flipBit bs i k).length = bs.length :=
  List.length_set ..

theorem flip_sync_decode (e : Endian) (i k : Nat) (rest : List Nat)
    (hi : i < 2) (hk : k < 8) :
    fieldDecode e ((flipBit (fieldEncode e 2 SyncValue ++ rest) i k).take 2)
      ≠ SyncValue := by
  have hxab : 0xab ^^^ 2 ^ k ≠ 0xab := by interval_cases k <;> decide
  have hxcd : 0xcd ^^^ 2 ^ k ≠ 0xcd := by interval_cases k <;> decide
  have hSb : fieldEncode .big 2 SyncValue = [0xab, 0xcd] := by decide
  have hSl : fieldEncode .little 2 SyncValue = [0xcd, 0xab] := by decide
  cases e
  · rw [hSb]
    interval_cases i <;>
      simp [flipBit, fieldDecode, leDecode, List.getD, SyncValue] <;> omega
  · rw [hSl]
    interval_cases i <;>
      simp [flipBit, fieldDecode, leDecode, List.getD, SyncValue] <;> omega

/-- Modelled from the spec: write of an IntValue field with fixed
serialised length n and serialisation offset off; the offset is added
to the value before serialisation, and the write fails with
BufferOverflow when the remaining capacity is below the field
length. -/
def intFieldWrite (e : Endian) (n off v len : Nat) : ErrorStatus × List Nat :=
  if len < n then (.BufferOverflow, [])
  else (.Success, fieldEncode e n (v + off))

/-- Field::length of a fixed length IntValue field: the configured
byte count, independent of the stored value. -/
def intFieldLength (n : Nat) : Nat := n

/-- BitmaskValue::length, which delegates to the underlying IntValue
field (BitmaskValue.h). -/
def bitmaskLength (n : Nat) : Nat := intFieldLength n

namespace Bitmask

/-- BitmaskValue::hasAllBitsSet: all the bits of the provided mask are
set in the stored value. -/
def hasAllBitsSet (v mask : Nat) : Bool := v &&& mask == mask

/-- BitmaskValue::hasAnyBitsSet: at least one bit of the provided mask
is set in the stored value. -/
def hasAnyBitsSet (v mask : Nat) : Bool := v &&& mask != 0

/-- BitmaskValue::setBits: bitwise or of the stored value with the
mask. -/
def setBits (v mask : Nat) : Nat := v ||| mask

/-- BitmaskValue::clearBits: bitwise and of the stored value with the
complement of the mask; the complement is taken in the W bit
ValueType of the field. -/
def clearBits (W v mask : Nat) : Nat := v &&& (mask ^^^ (2 ^ W - 1))

/-- The single bit mask produced by shifting 1 left by the bit number
inside the W bit ValueType. -/
def bitMask (W n : Nat) : Nat := (1 <<< n) % 2 ^ W

/-- BitmaskValue::getBitValue: hasAllBitsSet on the single bit mask. -/
def getBitValue (W v n : Nat) : Bool := hasAllBitsSet v (bitMask W n)

/-- BitmaskValue::setBitValue: setBits on the single bit mask when the
requested value is true, clearBits on it otherwise. -/
def setBitValue (W v n : Nat) (b : Bool) : Nat :=
  if b then setBits v (bitMask W n) else clearBits W v (bitMask W n)

theorem bitMask_eq (W n : Nat) (h : n < W) : bitMask W n = 2 ^ n := by
  unfold bitMask
  rw [Nat.shiftLeft_eq, one_mul]
  exact Nat.mod_eq_of_lt (Nat.pow_lt_pow_right (by norm_num) h)

theorem land_two_pow (v n : Nat) :
    v &&& 2 ^ n = if v.testBit n then 2 ^ n else 0 := by
  apply Nat.eq_of_testBit_eq
  intro i
  rw [Nat.testBit_land]
  by_cases hv : v.testBit n
  · rw [if_pos hv]
    by_cases hni : n = i
    · subst hni
      simp [hv]
    · simp [Nat.testBit_two_pow, hni]
  · rw [if_neg hv]
    by_cases hni : n = i
    · subst hni
      simp [hv]
    · simp [Nat.testBit_two_pow, hni]

theorem getBitValue_eq_testBit (W v n : Nat) (h : n < W) :
    getBitValue W v n = v.testBit n := by
  unfold getBitValue hasAllBitsSet
  rw [bitMask_eq W n h, land_two_pow]
  by_cases hv : v.testBit n
  · simp [hv]
  · have hne : (0 : Nat) ≠ 2 ^ n := (Nat.pos_pow_of_pos n (by norm_num)).ne
    simp [hv, hne]

theorem setBits_testBit (v mask i : Nat) :
    (setBits v mask).testBit i = (v.testBit i || mask.testBit i) :=
  Nat.testBit_lor ..

theorem clearBits_testBit (W v mask i : Nat) :
    (clearBits W v mask).testBit i
      = (v.testBit i && (mask.testBit i ^^ decide (i < W))) := by
  unfold clearBits
  rw [Nat.testBit_land, Nat.testBit_xor, Nat.testBit_two_pow_sub_one]

end Bitmask

/-- Modelled from the spec: full serialisation length of the tutorial
frame with a trailing checksum: SYNC(2) SIZE(2) ID(1) PAYLOAD
CHECKSUM(2). -/
def csLen (m : TestMsg) : Nat := 2 + 2 + 1 + msgLen m + 2

/-- Modelled from the spec: the BasicSum checksum calculator over a
sixteen bit accumulator, the arithmetic sum of the covered bytes. -/
def basicSum (bs : List Nat) : Nat := bs.sum % 2 ^ 16

/-- The span the CHECKSUM layer covers: SIZE, ID and PAYLOAD bytes.
The SIZE field carries a serialisation offset of 2 so that its value
also accounts for the trailing checksum it does not see. -/
def csInner (e : Endian) (m : TestMsg) : List Nat :=
  fieldEncode e 2 (1 + msgLen m + 2) ++ fieldEncode e 1 (msgIdOf m)
    ++ msgPayload e m

/-- Modelled from the spec: ProtocolStack::write of the tutorial stack
with a CHECKSUM layer.  With a random access iterator the checksum is
computed over the written span and the write succeeds; with a non
random access iterator the layer writes a placeholder value of zero
instead and returns UpdateRequired. -/
def csWrite (e : Endian) (randomAccess : Bool) (m : TestMsg) (len : Nat) :
    ErrorStatus × List Nat :=
  if len < csLen m then (.BufferOverflow, [])
  else if randomAccess then
    (.Success, fieldEncode e 2 SyncValue ++ csInner e m
      ++ fieldEncode e 2 (basicSum (csInner e m)))
  else
    (.UpdateRequired, fieldEncode e 2 SyncValue ++ csInner e m
      ++ fieldEncode e 2 0)

/-- Modelled from the spec: ProtocolStack::update over the written
bytes with a random access iterator.  The SYNC layer skips its two
bytes, the CHECKSUM layer recomputes the checksum over the covered
span and overwrites the trailing placeholder in place. -/
def csUpdate (e : Endian) (bs : List Nat) : ErrorStatus × List Nat :=
  if bs.length < 7 then (.NotEnoughData, bs)
  else (.Success, bs.take (bs.length - 2)
    ++ fieldEncode e 2 (basicSum ((bs.drop 2).take (bs.length - 4))))

theorem csInner_length (e : Endian) (m : TestMsg) :
    (csInner e m).length = 3 + msgLen m := by
  simp [csInner, fieldEncode_length, msgPayload_length]
  omega

theorem csUpdate_fixes (e : Endian) (m : TestMsg) (len : Nat)
    (hlen : csLen m ≤ len) :
    (csWrite e false m len).1 = .UpdateRequired ∧
      csUpdate e (csWrite e false m len).2
        = (.Success, (csWrite e true m len).2) ∧
      (csWrite e true m len).1 = .Success := by
  have hnb : ¬ len < csLen m := by omega
  have hSlen : (fieldEncode e 2 SyncValue).length = 2 := fieldEncode_length ..
  have hZ0len : (fieldEncode e 2 (0 : Nat)).length = 2 := fieldEncode_length ..
  have hIlen := csInner_length e m
  refine ⟨by simp [csWrite, hnb], ?_, by simp [csWrite, hnb]⟩
  simp only [csWrite, if_neg hnb, if_pos, Bool.false_eq_true, if_false]
  have hblen : (fieldEncode e 2 SyncValue ++ csInner e m
      ++ fieldEncode e 2 (0 : Nat)).length = 7 + msgLen m := by
    simp [hSlen, hIlen, hZ0len]
    omega
  unfold csUpdate
  rw [hblen, if_neg (by omega)]
  have htk : (fieldEncode e 2 SyncValue ++ csInner e m
      ++ fieldEncode e 2 (0 : Nat)).take (7 + msgLen m - 2)
      = fieldEncode e 2 SyncValue ++ csInner e m := by
    exact take_append_exact _ _ _ (by simp [hSlen, hIlen]; omega)
  have hdp : (fieldEncode e 2 SyncValue ++ csInner e m
      ++ fieldEncode e 2 (0 : Nat)).drop 2
      = csInner e m ++ fieldEncode e 2 (0 : Nat) := by
    rw [show fieldEncode e 2 SyncValue ++ csInner e m
        ++ fieldEncode e 2 (0 : Nat)
      = fieldEncode e 2 SyncValue
        ++ (csInner e m ++ fieldEncode e 2 (0 : Nat)) by simp]
    exact drop_append_exact _ _ _ hSlen
  have htk2 : (csInner e m ++ fieldEncode e 2 (0 : Nat)).take
        (7 + msgLen m - 4) = csInner e m :=
    take_append_exact _ _ _ (by omega)
  rw [htk, hdp, htk2]

/-- Claim C1: for every message M whose fields satisfy valid(M) = true,
encoding M with ProtocolStack::write and then running
ProtocolStack::read on exactly the produced bytes returns Success and
yields a message of the same concrete type whose every field value
equals the corresponding field value of M. -/
theorem claim_C1_roundtrip (cfg : StackCfg) (m : TestMsg) (len : Nat)
    (hc : wfCfg cfg) (hm : msgWf m) (_hv : msgValid m = true)
    (hlen : stackLen cfg m ≤ len) :
    stackRead cfg (stackWrite cfg m len).2
      = ⟨.Success, some m, stackLen cfg m⟩ := by
  rw [stackWrite_success cfg m len hlen]
  have h := stackReadA_frame cfg m true [] hc hm
  simpa [stackRead] using h

/-- Witness for C1 at the big endian test configuration and the
message of test1. -/
theorem claim_C1_roundtrip_w :
    wfCfg ⟨.big, 2, 0, 1⟩ ∧ msgWf (.msg1 0x0102)
      ∧ msgValid (.msg1 0x0102) = true
      ∧ stackLen ⟨.big, 2, 0, 1⟩ (.msg1 0x0102) ≤ 7
      ∧ stackRead ⟨.big, 2, 0, 1⟩
          (stackWrite ⟨.big, 2, 0, 1⟩ (.msg1 0x0102) 7).2
        = ⟨.Success, some (.msg1 0x0102), stackLen ⟨.big, 2, 0, 1⟩ (.msg1 0x0102)⟩ :=
  ⟨by decide, by decide, rfl, by decide,
    claim_C1_roundtrip ⟨.big, 2, 0, 1⟩ (.msg1 0x0102) 7
      (by decide) (by decide) rfl (by decide)⟩

/-- Claim C2: for the big endian stack with two byte sync, two byte
size and one byte id, reading the byte sequence ab cd 00 03 01 01 02
followed by any trailing byte returns Success with a decoded message
of ID 1 and payload field value 0x0102, consuming seven bytes; the
trailing byte beyond the declared size is not forwarded to the inner
layers. -/
theorem claim_C2_concrete :
    stackRead ⟨.big, 2, 0, 1⟩ [0xab, 0xcd, 0x00, 0x03, 0x01, 0x01, 0x02, 0x3f]
      = ⟨.Success, some (.msg1 0x0102), 7⟩ ∧
    ∀ b : Nat, stackRead ⟨.big, 2, 0, 1⟩
        ([0xab, 0xcd, 0x00, 0x03, 0x01, 0x01, 0x02] ++ [b])
      = ⟨.Success, some (.msg1 0x0102), 7⟩ := by
  constructor
  · decide
  · intro b
    have h := stackReadA_frame ⟨.big, 2, 0, 1⟩ (.msg1 0x0102) true [b]
      (by decide) (by decide)
    have hfb : frameBytes ⟨.big, 2, 0, 1⟩ (.msg1 0x0102)
        = [0xab, 0xcd, 0x00, 0x03, 0x01, 0x01, 0x02] := by decide
    rw [hfb] at h
    simpa [stackRead, stackLen, msgLen] using h

/-- Claim C3: feeding any strict prefix of a well formed encoded frame
to ProtocolStack::read returns NotEnoughData, never Success and never
ProtocolError, no message object is produced, and retrying with the
complete data succeeds. -/
theorem claim_C3_truncation (cfg : StackCfg) (m : TestMsg) (len k : Nat)
    (hc : wfCfg cfg) (hm : msgWf m) (hlen : stackLen cfg m ≤ len)
    (hk : k < stackLen cfg m) :
    (stackRead cfg ((stackWrite cfg m len).2.take k)).status = .NotEnoughData ∧
      (stackRead cfg ((stackWrite cfg m len).2.take k)).msg = none ∧
      stackRead cfg (stackWrite cfg m len).2
        = ⟨.Success, some m, stackLen cfg m⟩ := by
  rw [stackWrite_success cfg m len hlen]
  refine ⟨(stackRead_truncated cfg m k hc hk).1,
    (stackRead_truncated cfg m k hc hk).2, ?_⟩
  have h := stackReadA_frame cfg m true [] hc hm
  simpa [stackRead] using h

/-- Witness for C3 at the big endian test configuration, the message
of test1, and a one byte prefix as in test4. -/
theorem claim_C3_truncation_w :
    wfCfg ⟨.big, 2, 0, 1⟩ ∧ msgWf (.msg1 0x0102)
      ∧ stackLen ⟨.big, 2, 0, 1⟩ (.msg1 0x0102) ≤ 7
      ∧ 1 < stackLen ⟨.big, 2, 0, 1⟩ (.msg1 0x0102)
      ∧ ((stackRead ⟨.big, 2, 0, 1⟩
            ((stackWrite ⟨.big, 2, 0, 1⟩ (.msg1 0x0102) 7).2.take 1)).status
          = .NotEnoughData ∧
        (stackRead ⟨.big, 2, 0, 1⟩
            ((stackWrite ⟨.big, 2, 0, 1⟩ (.msg1 0x0102) 7).2.take 1)).msg
          = none ∧
        stackRead ⟨.big, 2, 0, 1⟩ (stackWrite ⟨.big, 2, 0, 1⟩ (.msg1 0x0102) 7).2
          = ⟨.Success, some (.msg1 0x0102),
              stackLen ⟨.big, 2, 0, 1⟩ (.msg1 0x0102)⟩) :=
  ⟨by decide, by decide, by decide, by decide,
    claim_C3_truncation ⟨.big, 2, 0, 1⟩ (.msg1 0x0102) 7 1
      (by decide) (by decide) (by decide) (by decide)⟩

/-- Claim C4: flipping any bit in the sync prefix bytes of an
otherwise valid frame makes ProtocolStack::read return ProtocolError
with an empty MsgPtr, interpreting zero bytes of the remaining frame;
on write the sync layer always emits the fixed expected pattern. -/
theorem claim_C4_syncCorruption (cfg : StackCfg) (m : TestMsg)
    (len i k : Nat) (_hc : wfCfg cfg) (_hm : msgWf m)
    (hlen : stackLen cfg m ≤ len) (hi : i < 2) (hk : k < 8) :
    stackRead cfg (flipBit (stackWrite cfg m len).2 i k)
      = ⟨.ProtocolError, none, 0⟩ ∧
    (stackWrite cfg m len).2.take 2 = fieldEncode cfg.endian 2 SyncValue := by
  rw [stackWrite_success cfg m len hlen]
  have hSlen : (fieldEncode cfg.endian 2 SyncValue).length = 2 :=
    fieldEncode_length ..
  have hframe2 : frameBytes cfg m
      = fieldEncode cfg.endian 2 SyncValue
        ++ (fieldEncode cfg.endian cfg.sizeLen
              (cfg.idLen + msgLen m + cfg.sizeOff)
          ++ (fieldEncode cfg.endian cfg.idLen (msgIdOf m)
            ++ msgPayload cfg.endian m)) := by
    simp [frameBytes]
  constructor
  · apply stackReadA_mismatch
    · rw [flipBit_length, frameBytes_length]
      have : stackLen cfg m = 2 + cfg.sizeLen + cfg.idLen + msgLen m := rfl
      omega
    · rw [hframe2]
      exact flip_sync_decode cfg.endian i k _ hi hk
  · rw [hframe2]
    exact take_append_exact _ _ _ hSlen

/-- Witness for C4 at the big endian test configuration and the test3
corruption, 0xcd corrupted in its lowest bit. -/
theorem claim_C4_syncCorruption_w :
    wfCfg ⟨.big, 2, 0, 1⟩ ∧ msgWf (.msg1 0x0102)
      ∧ stackLen ⟨.big, 2, 0, 1⟩ (.msg1 0x0102) ≤ 7 ∧ (1 : Nat) < 2 ∧ (0 : Nat) < 8
      ∧ (stackRead ⟨.big, 2, 0, 1⟩
            (flipBit (stackWrite ⟨.big, 2, 0, 1⟩ (.msg1 0x0102) 7).2 1 0)
          = ⟨.ProtocolError, none, 0⟩ ∧
        (stackWrite ⟨.big, 2, 0, 1⟩ (.msg1 0x0102) 7).2.take 2
          = fieldEncode Endian.big 2 SyncValue) :=
  ⟨by decide, by decide, by decide, by decide, by decide,
    claim_C4_syncCorruption ⟨.big, 2, 0, 1⟩ (.msg1 0x0102) 7 1 0
      (by decide) (by decide) (by decide) (by decide) (by decide)⟩

/-- Claim C5: with the in place allocation policy, a read attempted
while the previously returned MsgPtr is still held (the single
allocation slot is occupied) returns MsgAllocFailure and produces no
message; after the slot is released, retrying the same read
succeeds. -/
theorem claim_C5_inPlaceAlloc (cfg : StackCfg) (m : TestMsg) (len : Nat)
    (hc : wfCfg cfg) (hm : msgWf m) (hlen : stackLen cfg m ≤ len) :
    stackReadA cfg false (stackWrite cfg m len).2
      = ⟨.MsgAllocFailure, none, 2 + cfg.sizeLen + cfg.idLen⟩ ∧
    stackReadA cfg true (stackWrite cfg m len).2
      = ⟨.Success, some m, stackLen cfg m⟩ := by
  rw [stackWrite_success cfg m len hlen]
  have h1 := stackReadA_frame cfg m false [] hc hm
  have h2 := stackReadA_frame cfg m true [] hc hm
  rw [List.append_nil] at h1 h2
  simp at h1 h2
  exact ⟨h1, h2⟩

/-- Witness for C5 at the big endian test configuration and the
message of test1. -/
theorem claim_C5_inPlaceAlloc_w :
    wfCfg ⟨.big, 2, 0, 1⟩ ∧ msgWf (.msg1 0x0102)
      ∧ stackLen ⟨.big, 2, 0, 1⟩ (.msg1 0x0102) ≤ 7
      ∧ (stackReadA ⟨.big, 2, 0, 1⟩ false
            (stackWrite ⟨.big, 2, 0, 1⟩ (.msg1 0x0102) 7).2
          = ⟨.MsgAllocFailure, none, 5⟩ ∧
        stackReadA ⟨.big, 2, 0, 1⟩ true
            (stackWrite ⟨.big, 2, 0, 1⟩ (.msg1 0x0102) 7).2
          = ⟨.Success, some (.msg1 0x0102),
              stackLen ⟨.big, 2, 0, 1⟩ (.msg1 0x0102)⟩) :=
  ⟨by decide, by decide, by decide,
    claim_C5_inPlaceAlloc ⟨.big, 2, 0, 1⟩ (.msg1 0x0102) 7
      (by decide) (by decide) (by decide)⟩

/-- Claim C6: writing through a non random access iterator with a
checksum layer in the stack emits a zero placeholder for the checksum
field and returns UpdateRequired; a subsequent update pass over the
written bytes fixes the placeholder in place and returns Success,
producing exactly the bytes of a random access write, which itself
succeeds directly so that update is required only in the non random
access case. -/
theorem claim_C6_updateRequired (e : Endian) (m : TestMsg) (len : Nat)
    (hlen : csLen m ≤ len) :
    (csWrite e false m len).1 = .UpdateRequired ∧
    (csWrite e false m len).2
      = fieldEncode e 2 SyncValue ++ csInner e m ++ fieldEncode e 2 0 ∧
    csUpdate e (csWrite e false m len).2
      = (.Success, (csWrite e true m len).2) ∧
    (csWrite e true m len).1 = .Success := by
  obtain ⟨h1, h2, h3⟩ := csUpdate_fixes e m len hlen
  refine ⟨h1, ?_, h2, h3⟩
  simp [csWrite, show ¬ len < csLen m by omega]

/-- Witness for C6 at the big endian tutorial stack and the test1
message. -/
theorem claim_C6_updateRequired_w :
    csLen (.msg1 0x0102) ≤ 9
      ∧ ((csWrite Endian.big false (.msg1 0x0102) 9).1 = .UpdateRequired ∧
        (csWrite Endian.big false (.msg1 0x0102) 9).2
          = fieldEncode Endian.big 2 SyncValue ++ csInner Endian.big (.msg1 0x0102)
            ++ fieldEncode Endian.big 2 0 ∧
        csUpdate Endian.big (csWrite Endian.big false (.msg1 0x0102) 9).2
          = (.Success, (csWrite Endian.big true (.msg1 0x0102) 9).2) ∧
        (csWrite Endian.big true (.msg1 0x0102) 9).1 = .Success) :=
  ⟨by decide, claim_C6_updateRequired Endian.big (.msg1 0x0102) 9 (by decide)⟩

/-- Claim C7: a successful field write advances the output cursor by
exactly the number of bytes reported by length(), BitmaskValue::length
delegates to the underlying IntValue length, and ProtocolStack::length
equals the exact byte count a successful ProtocolStack::write
produces. -/
theorem claim_C7_lengthExact (e : Endian) (n off v flen : Nat)
    (cfg : StackCfg) (m : TestMsg) (len : Nat)
    (hf : intFieldLength n ≤ flen) (hlen : stackLen cfg m ≤ len) :
    (intFieldWrite e n off v flen).1 = .Success ∧
    (intFieldWrite e n off v flen).2.length = intFieldLength n ∧
    bitmaskLength n = intFieldLength n ∧
    (stackWrite cfg m len).1 = .Success ∧
    (stackWrite cfg m len).2.length = stackLen cfg m := by
  have hnf : ¬ flen < n := by
    simp [intFieldLength] at hf
    omega
  refine ⟨?_, ?_, rfl, ?_, ?_⟩
  · simp [intFieldWrite, hnf]
  · simp [intFieldWrite, hnf, fieldEncode_length, intFieldLength]
  · rw [stackWrite_success cfg m len hlen]
  · rw [stackWrite_success cfg m len hlen]
    exact frameBytes_length cfg m

/-- Witness for C7 at a two byte big endian field and the big endian
test configuration with the test1 message. -/
theorem claim_C7_lengthExact_w :
    intFieldLength 2 ≤ 4 ∧ stackLen ⟨.big, 2, 0, 1⟩ (.msg1 0x0102) ≤ 7
      ∧ ((intFieldWrite Endian.big 2 0 0x0102 4).1 = .Success ∧
        (intFieldWrite Endian.big 2 0 0x0102 4).2.length = intFieldLength 2 ∧
        bitmaskLength 2 = intFieldLength 2 ∧
        (stackWrite ⟨.big, 2, 0, 1⟩ (.msg1 0x0102) 7).1 = .Success ∧
        (stackWrite ⟨.big, 2, 0, 1⟩ (.msg1 0x0102) 7).2.length
          = stackLen ⟨.big, 2, 0, 1⟩ (.msg1 0x0102)) :=
  ⟨by decide, by decide,
    claim_C7_lengthExact Endian.big 2 0 0x0102 4 ⟨.big, 2, 0, 1⟩
      (.msg1 0x0102) 7 (by decide) (by decide)⟩

/-- Claim C8: refresh() returns true exactly when the call changed at
least one field of the message; for the catalog messages, which do not
override the refresh hook, refresh() changes nothing and returns false
as the default. -/
theorem claim_C8_refreshDefault (m : TestMsg) :
    msgRefresh m = (m, false) ∧
    ((msgRefresh m).2 = true ↔ (msgRefresh m).1 ≠ m) := by
  refine ⟨rfl, ?_⟩
  simp [msgRefresh]

/-- Claim C9: when the full encoded length exceeds the available
output buffer length, ProtocolStack::write returns BufferOverflow and
not Success; a message level write likewise returns BufferOverflow
whenever the supplied maximal length is smaller than the serialisation
length of the message. -/
theorem claim_C9_bufferOverflow (cfg : StackCfg) (m : TestMsg) (len : Nat)
    (e : Endian) (m2 : TestMsg) (len2 : Nat)
    (hlen : len < stackLen cfg m) (hlen2 : len2 < msgLen m2) :
    (stackWrite cfg m len).1 = .BufferOverflow ∧
    (stackWrite cfg m len).1 ≠ .Success ∧
    (msgWrite e m2 len2).1 = .BufferOverflow := by
  have hstack : stackLen cfg m = 2 + cfg.sizeLen + cfg.idLen + msgLen m := rfl
  have hbover : (stackWrite cfg m len).1 = .BufferOverflow := by
    unfold stackWrite
    by_cases h1 : len < 2
    · simp [h1]
    · by_cases h2 : len - 2 < cfg.sizeLen
      · simp [h1, h2]
      · by_cases h3 : len - 2 - cfg.sizeLen < cfg.idLen
        · simp [h1, h2, h3]
        · have h4 : len - 2 - cfg.sizeLen - cfg.idLen < msgLen m := by omega
          simp [h1, h2, h3, msgWrite, h4]
  refine ⟨hbover, ?_, ?_⟩
  · rw [hbover]
    decide
  · simp [msgWrite, hlen2]

/-- Witness for C9 at the little endian configuration of test5 with a
one byte buffer, and a message level write into a one byte buffer. -/
theorem claim_C9_bufferOverflow_w :
    (1 : Nat) < stackLen ⟨.little, 3, 0, 2⟩ (.msg1 0x0203)
      ∧ (1 : Nat) < msgLen (.msg1 0x0203)
      ∧ ((stackWrite ⟨.little, 3, 0, 2⟩ (.msg1 0x0203) 1).1 = .BufferOverflow ∧
        (stackWrite ⟨.little, 3, 0, 2⟩ (.msg1 0x0203) 1).1 ≠ .Success ∧
        (msgWrite Endian.little (.msg1 0x0203) 1).1 = .BufferOverflow) :=
  ⟨by decide, by decide,
    claim_C9_bufferOverflow ⟨.little, 3, 0, 2⟩ (.msg1 0x0203) 1
      Endian.little (.msg1 0x0203) 1 (by decide) (by decide)⟩

/-- Claim C10: for every bit number n below the bit width of a
BitmaskValue, setBitValue(n, true) makes getBitValue(n) true,
setBitValue(n, false) makes it false, every bit other than n keeps its
previous value, and setBits or clearBits with a mask leave every bit
that is clear in the mask unchanged. -/
theorem claim_C10_bitAccessors (W v n m i mask : Nat) (b : Bool)
    (hn : n < W) (hm : m < W) (hmn : m ≠ n) (hi : i < W)
    (hmaski : mask.testBit i = false) :
    Bitmask.getBitValue W (Bitmask.setBitValue W v n true) n = true ∧
    Bitmask.getBitValue W (Bitmask.setBitValue W v n false) n = false ∧
    Bitmask.getBitValue W (Bitmask.setBitValue W v n b) m
      = Bitmask.getBitValue W v m ∧
    (Bitmask.setBits v mask).testBit i = v.testBit i ∧
    (Bitmask.clearBits W v mask).testBit i = v.testBit i := by
  have hnm : ¬ n = m := fun h => hmn h.symm
  refine ⟨?_, ?_, ?_, ?_, ?_⟩
  · rw [Bitmask.getBitValue_eq_testBit W _ n hn]
    simp [Bitmask.setBitValue, Bitmask.setBits, Bitmask.bitMask_eq W n hn,
      Nat.testBit_lor, Nat.testBit_two_pow]
  · rw [Bitmask.getBitValue_eq_testBit W _ n hn]
    simp [Bitmask.setBitValue, Bitmask.clearBits_testBit,
      Bitmask.bitMask_eq W n hn, Nat.testBit_two_pow, hn]
  · cases b
    · rw [Bitmask.getBitValue_eq_testBit W _ m hm,
        Bitmask.getBitValue_eq_testBit W v m hm]
      simp [Bitmask.setBitValue, Bitmask.clearBits_testBit,
        Bitmask.bitMask_eq W n hn, Nat.testBit_two_pow, hm, hnm]
    · rw [Bitmask.getBitValue_eq_testBit W _ m hm,
        Bitmask.getBitValue_eq_testBit W v m hm]
      simp [Bitmask.setBitValue, Bitmask.setBits, Bitmask.bitMask_eq W n hn,
        Nat.testBit_lor, Nat.testBit_two_pow, hnm]
  · simp [Bitmask.setBits_testBit, hmaski]
  · simp [Bitmask.clearBits_testBit, hmaski, hi]

/-- Witness for C10 at an eight bit mask. -/
theorem claim_C10_bitAccessors_w :
    (1 : Nat) < 8 ∧ (0 : Nat) < 8 ∧ (0 : Nat) ≠ 1 ∧ (2 : Nat) < 8
      ∧ (8 : Nat).testBit 2 = false
      ∧ (Bitmask.getBitValue 8 (Bitmask.setBitValue 8 5 1 true) 1 = true ∧
        Bitmask.getBitValue 8 (Bitmask.setBitValue 8 5 1 false) 1 = false ∧
        Bitmask.getBitValue 8 (Bitmask.setBitValue 8 5 1 true) 0
          = Bitmask.getBitValue 8 5 0 ∧
        (Bitmask.setBits 5 8).testBit 2 = (5 : Nat).testBit 2 ∧
        (Bitmask.clearBits 8 5 8).testBit 2 = (5 : Nat).testBit 2) :=
  ⟨by decide, by decide, by decide, by decide, by decide,
    claim_C10_bitAccessors 8 5 1 0 2 8 true
      (by decide) (by decide) (by decide) (by decide) (by decide)⟩

end CommsModel
